import Mathlib

/-!
Verification of the semantic analyzer in `src/main.py` (class `SemanticAnalyzer`,
built on `ast.NodeVisitor`) against its natural-language specification.

The embedding models the analyzer over the fragment of the Python AST that the
analyzer handles: name references, numeric and string literals, binary
operations, attribute accesses, calls, assignments, function and class
definitions, return statements, and expression statements.  Nodes the source
never inspects specially are traversed exactly as `ast.NodeVisitor.generic_visit`
traverses them (visit every child, in field order).

Python exceptions abort the traversal but leave the mutations already made to
`self.symbol_table` in place; the embedding therefore threads the symbol table
through every statement handler and returns it alongside the optional error.
Expression handlers in the source never mutate the symbol table, so they return
only the optional error.
-/

namespace Sem

/-- The types the source stores in `VarSymbol.type`: the Python type objects
`int`, `float`, `str` and the tag strings used by the declaration handlers,
`'function'` (visit_FunctionDef), `'variable'` (parameters), `'class'`
(visit_ClassDef). -/
inductive Ty where
  | int
  | float
  | str
  | function
  | var
  | cls
deriving DecidableEq, Repr

/-- The errors the source raises: `Variable no definida` (visit_Name and
get_value_type), `Objetivo de asignacion no soportado` (visit_Assign),
`Funcion no definida` (visit_Call), `Coincidencia de tipos incorrecta`
(visit_BinOp and get_value_type), and the `TypeError` for an unknown node in
get_value_type. -/
inductive Err where
  | undefinedVariable (name : String)
  | unsupportedAssignTarget
  | undefinedFunction (name : String)
  | typeMismatch (left right : Ty)
  | unknownNode
deriving DecidableEq, Repr

/-- A numeric literal: `ast.Num` carries a number; the analyzer only ever asks
`isinstance(node.n, int)`. -/
inductive PyNum where
  | ofInt (n : Int)
  | ofFloat
deriving DecidableEq, Repr

/-- Binary operators.  `visit_BinOp` and `get_value_type` never inspect
`node.op`, but the AST carries it. -/
inductive BOp where
  | add
  | sub
  | mult
  | div
deriving DecidableEq, Repr

/-- Expression nodes of the analyzed fragment. -/
inductive Expr where
  | name (id : String)
  | num (n : PyNum)
  | str (s : String)
  | binOp (op : BOp) (left right : Expr)
  | call (func : Expr) (args : List Expr)
  | attr (value : Expr) (field : String)
deriving Repr

/-- Statement nodes of the analyzed fragment.  `ret` models `ast.Return`
(no handler in the source, so `generic_visit` visits its value). -/
inductive Stmt where
  | functionDef (name : String) (args : List String) (body : List Stmt)
  | classDef (name : String) (body : List Stmt)
  | assign (targets : List Expr) (value : Expr)
  | exprStmt (value : Expr)
  | ret (value : Expr)
deriving Repr

/-- Whether an expression node is a plain `ast.Name`
(`isinstance(target, ast.Name)` / `isinstance(node.func, ast.Name)`). -/
def Expr.isName : Expr → Bool
  | .name _ => true
  | _ => false

/-- One scope: a Python dict from identifier to the type stored in its
`VarSymbol` (the symbol also repeats the name, which carries no information). -/
abbrev Scope := List (String × Ty)

/-- `self.symbol_table`: a list of scopes, innermost last.  The constructor
initializes it to `[{}]`. -/
abbrev SymbolTable := List Scope

/-- Dict lookup in one scope. -/
def lookupScope (s : Scope) (x : String) : Option Ty :=
  match s with
  | [] => none
  | (y, ty) :: rest => if y = x then some ty else lookupScope rest x

/-- Dict assignment `scope[name] = VarSymbol(name, ty)`: replace an existing
binding in place, otherwise append. -/
def insertScope (s : Scope) (x : String) (ty : Ty) : Scope :=
  match s with
  | [] => [(x, ty)]
  | (y, t) :: rest => if y = x then (x, ty) :: rest else (y, t) :: insertScope rest x ty

/-- The innermost scope, `self.symbol_table[-1]`.  The table is always
non-empty when the analyzer runs (it starts as `[{}]` and nothing ever pops). -/
def lastScope (t : SymbolTable) : Scope :=
  (t.getLast?).getD []

/-- `self.symbol_table[-1][name] = VarSymbol(name, ty)`. -/
def declareLast (t : SymbolTable) (x : String) (ty : Ty) : SymbolTable :=
  t.dropLast ++ [insertScope (lastScope t) x ty]

/-- `any(name in scope for scope in self.symbol_table)` (visit_Name). -/
def inAnyScope (x : String) (t : SymbolTable) : Bool :=
  t.any (fun s => (lookupScope s x).isSome)

/-- Modelled from the Python runtime, not from code under src/: the membership
test `func_name not in dir(__builtins__)` in `visit_Call` consults the names of
the `builtins` module of the interpreter running the script (when `main.py`
runs as a script, `__builtins__` is the `builtins` module).  This is the full
`dir(__builtins__)` of CPython 3.11 under a normal script run: builtin
callables and constants, exception classes, module dunders, and the names the
`site` module injects (`exit`, `quit`, `help`, `copyright`, `credits`,
`license`). -/
def builtinNames : List String :=
  ["ArithmeticError", "AssertionError", "AttributeError", "BaseException",
   "BaseExceptionGroup", "BlockingIOError", "BrokenPipeError", "BufferError",
   "BytesWarning", "ChildProcessError", "ConnectionAbortedError",
   "ConnectionError", "ConnectionRefusedError", "ConnectionResetError",
   "DeprecationWarning", "EOFError", "Ellipsis", "EncodingWarning",
   "EnvironmentError", "Exception", "ExceptionGroup", "False",
   "FileExistsError", "FileNotFoundError", "FloatingPointError",
   "FutureWarning", "GeneratorExit", "IOError", "ImportError",
   "ImportWarning", "IndentationError", "IndexError", "InterruptedError",
   "IsADirectoryError", "KeyError", "KeyboardInterrupt", "LookupError",
   "MemoryError", "ModuleNotFoundError", "NameError", "None",
   "NotADirectoryError", "NotImplemented", "NotImplementedError", "OSError",
   "OverflowError", "PendingDeprecationWarning", "PermissionError",
   "ProcessLookupError", "RecursionError", "ReferenceError",
   "ResourceWarning", "RuntimeError", "RuntimeWarning", "StopAsyncIteration",
   "StopIteration", "SyntaxError", "SyntaxWarning", "SystemError",
   "SystemExit", "TabError", "TimeoutError", "True", "TypeError",
   "UnboundLocalError", "UnicodeDecodeError", "UnicodeEncodeError",
   "UnicodeError", "UnicodeTranslateError", "UnicodeWarning", "UserWarning",
   "ValueError", "Warning", "ZeroDivisionError", "__build_class__",
   "__debug__", "__doc__", "__import__", "__loader__", "__name__",
   "__package__", "__spec__", "abs", "aiter", "all", "anext", "any", "ascii",
   "bin", "bool", "breakpoint", "bytearray", "bytes", "callable", "chr",
   "classmethod", "compile", "complex", "copyright", "credits", "delattr",
   "dict", "dir", "divmod", "enumerate", "eval", "exec", "exit", "filter",
   "float", "format", "frozenset", "getattr", "globals", "hasattr", "hash",
   "help", "hex", "id", "input", "int", "isinstance", "issubclass", "iter",
   "len", "license", "list", "locals", "map", "max", "memoryview", "min",
   "next", "object", "oct", "open", "ord", "pow", "print", "property",
   "quit", "range", "repr", "reversed", "round", "set", "setattr", "slice",
   "sorted", "staticmethod", "str", "sum", "super", "tuple", "type", "vars",
   "zip"]

/-- `get_value_type` (lines 66-85): name lookup consults only
`self.symbol_table[-1]`; a binary operation whose operand types are equal, or
are `(int,float)` or `(float,int)`, is typed `float`; `ast.Num` is `int` or
`float` by `isinstance(node.n, int)`; `ast.Str` is `str`; any other node raises
`TypeError` (modelled as `Err.unknownNode`). -/
def get_value_type (t : SymbolTable) : Expr → Except Err Ty
  | .name x =>
      match lookupScope (lastScope t) x with
      | some ty => .ok ty
      | none => .error (.undefinedVariable x)
  | .binOp _ l r =>
      match get_value_type t l with
      | .error e => .error e
      | .ok lt =>
          match get_value_type t r with
          | .error e => .error e
          | .ok rt =>
              if lt = rt ∨ (lt, rt) ∈ [(Ty.int, Ty.float), (Ty.float, Ty.int)] then
                .ok .float
              else
                .error (.typeMismatch lt rt)
  | .num (.ofInt _) => .ok .int
  | .num .ofFloat => .ok .float
  | .str _ => .ok .str
  | .call _ _ => .error .unknownNode
  | .attr _ _ => .error .unknownNode

/-- The pair table of `visit_BinOp` line 62:
`[(int, float), (float, int), (int, int), (float, float), (str, str)]`. -/
def allowedPair (lt rt : Ty) : Bool :=
  decide ((lt, rt) ∈ [(Ty.int, Ty.float), (Ty.float, Ty.int), (Ty.int, Ty.int),
                      (Ty.float, Ty.float), (Ty.str, Ty.str)])

mutual

/-- Visiting an expression node: dispatch as `ast.NodeVisitor.visit` does.
`visit_Name` checks membership in any scope; `visit_Call` checks a plain-name
callee against the builtin list before visiting the arguments, and performs no
check at all on a non-name callee; `visit_BinOp` visits both operands and then
type-checks them with `get_value_type` against the pair table; `ast.Num`,
`ast.Str` have no handler and no relevant children; `ast.Attribute` has no
handler, so `generic_visit` visits its value.  No expression handler mutates
the symbol table. -/
def visitExpr : Expr → SymbolTable → Option Err
  | .name x, t =>
      if inAnyScope x t then none else some (.undefinedVariable x)
  | .num _, _ => none
  | .str _, _ => none
  | .binOp _ l r, t =>
      match visitExpr l t with
      | some e => some e
      | none =>
          match visitExpr r t with
          | some e => some e
          | none =>
              match get_value_type t l with
              | .error e => some e
              | .ok lt =>
                  match get_value_type t r with
                  | .error e => some e
                  | .ok rt =>
                      if allowedPair lt rt then none else some (.typeMismatch lt rt)
  | .call f args, t =>
      match f with
      | .name g =>
          if g ∈ builtinNames then visitExprList args t else some (.undefinedFunction g)
      | _ => visitExprList args t
  | .attr v _, t => visitExpr v t

/-- Visiting a list of expressions in order (the argument loop of
`visit_Call`); the first raised error aborts the rest. -/
def visitExprList : List Expr → SymbolTable → Option Err
  | [], _ => none
  | e :: rest, t =>
      match visitExpr e t with
      | some err => some err
      | none => visitExprList rest t

end

/-- The target loop of `visit_Assign` (lines 36-43): for each target in order,
a plain name is bound in the innermost scope to `get_value_type(node.value)`
(re-computed per target on the already-mutated table), and any other target
raises `Objetivo de asignacion no soportado`.  The value expression itself is
never visited. -/
def assignLoop : List Expr → Expr → SymbolTable → SymbolTable × Option Err
  | [], _, t => (t, none)
  | tgt :: rest, v, t =>
      match tgt with
      | .name x =>
          match get_value_type t v with
          | .error e => (t, some e)
          | .ok ty => assignLoop rest v (declareLast t x ty)
      | _ => (t, some .unsupportedAssignTarget)

/-- The parameter loop of `visit_FunctionDef` (lines 25-26): each argument is
bound in the innermost scope with type tag `'variable'`.  No scope is pushed. -/
def declareParams : List String → SymbolTable → SymbolTable
  | [], t => t
  | a :: rest, t => declareParams rest (declareLast t a .var)

mutual

/-- Visiting a statement node.  `visit_FunctionDef` binds the function name as
`'function'` and every parameter as `'variable'` in the innermost scope and
then `generic_visit`s the body — it never pushes a scope.  `visit_ClassDef`
binds the class name as `'class'` and `generic_visit`s the body.
`visit_Assign` runs the target loop.  `ast.Expr` and `ast.Return` have no
handler, so `generic_visit` visits their value expression. -/
def visitStmt : Stmt → SymbolTable → SymbolTable × Option Err
  | .functionDef n args body, t =>
      visitStmtList body (declareParams args (declareLast t n .function))
  | .classDef n body, t =>
      visitStmtList body (declareLast t n .cls)
  | .assign targets v, t => assignLoop targets v t
  | .exprStmt e, t => (t, visitExpr e t)
  | .ret e, t => (t, visitExpr e t)

/-- Visiting a list of statements in order (a module body or a definition
body); the first raised error aborts the rest but keeps the table mutations
already made. -/
def visitStmtList : List Stmt → SymbolTable → SymbolTable × Option Err
  | [], t => (t, none)
  | s :: rest, t =>
      match visitStmt s t with
      | (t1, some e) => (t1, some e)
      | (t1, none) => visitStmtList rest t1

end

/-- Running the analyzer over a parsed module: `SemanticAnalyzer()` starts with
`symbol_table = [{}]` and `visit(tree)` dispatches `generic_visit` on
`ast.Module`, visiting the top-level statements in order.  Returns the final
symbol table together with the first raised error, if any. -/
def runAnalyzer (prog : List Stmt) : SymbolTable × Option Err :=
  visitStmtList prog [[]]

/-- The verdict of `analyze_semantics` minus its file I/O: success corresponds
to printing `Analisis semantico aprobado`, failure to catching the exception. -/
inductive AnalysisResult where
  | success
  | failure (e : Err)
deriving DecidableEq, Repr

/-- The entry point the specification calls `analyze`. -/
def analyze (prog : List Stmt) : AnalysisResult :=
  match (runAnalyzer prog).2 with
  | none => .success
  | some e => .failure e

/-! ### Auxiliary notions used to state the specification claims

These definitions formalize phrases of the claims (declared before use,
references an identifier, and so on); they are not part of the embedded
analyzer. -/

/-- The identifiers of one scope. -/
def scopeKeys (s : Scope) : List String := s.map (fun p => p.1)

/-- Every identifier bound anywhere in the symbol table. -/
def tableNames (t : SymbolTable) : List String := (t.map scopeKeys).flatten

mutual

/-- Every identifier occurring as an `ast.Name` node anywhere inside an
expression. -/
def allNames : Expr → List String
  | .name x => [x]
  | .num _ => []
  | .str _ => []
  | .binOp _ l r => allNames l ++ allNames r
  | .call f args => allNames f ++ allNamesList args
  | .attr v _ => allNames v

/-- `allNames` over a list of expressions. -/
def allNamesList : List Expr → List String
  | [] => []
  | e :: rest => allNames e ++ allNamesList rest

end

mutual

/-- The identifiers whose use the traversal of an expression is guaranteed to
either check against the symbol table, check against the builtin list (a plain
callee name), or abort on before reaching: name nodes visited by `visit_Name`,
operands of binary operations, arguments of calls, values of attribute
accesses.  The subtree of a non-name callee is excluded: `visit_Call` never
looks at it. -/
def checkedNames : Expr → List String
  | .name x => [x]
  | .num _ => []
  | .str _ => []
  | .binOp _ l r => checkedNames l ++ checkedNames r
  | .call f args =>
      (match f with
       | .name g => [g]
       | _ => []) ++ checkedNamesList args
  | .attr v _ => checkedNames v

/-- `checkedNames` over a list of expressions. -/
def checkedNamesList : List Expr → List String
  | [] => []
  | e :: rest => checkedNames e ++ checkedNamesList rest

end

mutual

/-- The identifiers whose use a statement is guaranteed to check or abort on:
for an assignment with at least one target every name inside the value (the
value goes through `get_value_type`, which aborts on any call or attribute
node), for the other statements the `checkedNames` of the expressions the
traversal visits. -/
def checkedUsesStmt : Stmt → List String
  | .functionDef _ _ body => checkedUsesStmtList body
  | .classDef _ body => checkedUsesStmtList body
  | .assign targets v =>
      match targets with
      | [] => []
      | _ :: _ => allNames v
  | .exprStmt e => checkedNames e
  | .ret e => checkedNames e

/-- `checkedUsesStmt` over a list of statements. -/
def checkedUsesStmtList : List Stmt → List String
  | [] => []
  | s :: rest => checkedUsesStmt s ++ checkedUsesStmtList rest

end

mutual

/-- Every identifier a statement can ever bind in the symbol table: function
names, parameter names, class names, and plain-name assignment targets. -/
def declNamesStmt : Stmt → List String
  | .functionDef n args body => n :: args ++ declNamesStmtList body
  | .classDef n body => n :: declNamesStmtList body
  | .assign targets _ =>
      targets.filterMap (fun tgt => match tgt with | .name x => some x | _ => none)
  | .exprStmt _ => []
  | .ret _ => []

/-- `declNamesStmt` over a list of statements. -/
def declNamesStmtList : List Stmt → List String
  | [] => []
  | s :: rest => declNamesStmt s ++ declNamesStmtList rest

end

/-- Expressions built only from numeric literals, already-declared names and
binary operations (the numeric fragment used to state the amended claim C1). -/
def numExpr (declared : List String) : Expr → Bool
  | .num _ => true
  | .name x => declared.contains x
  | .binOp _ l r => numExpr declared l && numExpr declared r
  | _ => false

/-- One statement of the numeric fragment: a single-plain-name assignment of a
numeric expression, or a numeric expression statement.  Returns the extended
declared set, or `none` when the statement is outside the fragment. -/
def numStmt (declared : List String) : Stmt → Option (List String)
  | .assign [.name x] v => if numExpr declared v then some (x :: declared) else none
  | .exprStmt e => if numExpr declared e then some declared else none
  | _ => none

/-- Programs made of single-plain-name assignments and expression statements
over the numeric fragment, every name assigned before use. -/
def numProg (declared : List String) : List Stmt → Bool
  | [] => true
  | s :: rest =>
      match numStmt declared s with
      | some d2 => numProg d2 rest
      | none => false

/-- Invariant tying the declared set of the numeric fragment to the single
scope of the running analyzer: every declared name is bound to a numeric type. -/
def NumInv (declared : List String) (s : Scope) : Prop :=
  ∀ x, x ∈ declared → ∃ ty, lookupScope s x = some ty ∧ (ty = Ty.int ∨ ty = Ty.float)

mutual

/-- Every name referenced inside the expression is in `declared` (a plain
callee name counts as declared when it is a builtin). -/
def usesDeclared (declared : List String) : Expr → Bool
  | .name x => declared.contains x
  | .num _ => true
  | .str _ => true
  | .binOp _ l r => usesDeclared declared l && usesDeclared declared r
  | .call f args =>
      (match f with
       | .name g => declared.contains g || builtinNames.contains g
       | other => usesDeclared declared other) &&
      usesDeclaredList declared args
  | .attr v _ => usesDeclared declared v

/-- `usesDeclared` over a list of expressions. -/
def usesDeclaredList (declared : List String) : List Expr → Bool
  | [] => true
  | e :: rest => usesDeclared declared e && usesDeclaredList declared rest

end

/-- The names a statement makes visible to the statements after it under
lexical scoping: its function or class name, or its plain-name assignment
targets (parameters stay local to the body). -/
def visibleAfter : Stmt → List String
  | .functionDef n _ _ => [n]
  | .classDef n _ => [n]
  | .assign targets _ =>
      targets.filterMap (fun tgt => match tgt with | .name x => some x | _ => none)
  | .exprStmt _ => []
  | .ret _ => []

mutual

/-- Declared-before-use for one statement, the hypothesis of claim C1: every
identifier referenced in an expression position is declared by the time it is
referenced.  A function declaration makes its own name and its parameters
visible to its body; a class declaration makes its name visible to its body. -/
def declaredBeforeUseStmt (declared : List String) : Stmt → Bool
  | .functionDef n args body => declaredBeforeUse (n :: args ++ declared) body
  | .classDef n body => declaredBeforeUse (n :: declared) body
  | .assign _ v => usesDeclared declared v
  | .exprStmt e => usesDeclared declared e
  | .ret e => usesDeclared declared e

/-- Declared-before-use for a statement sequence: each statement only uses
names already declared, and extends the declared set for its successors. -/
def declaredBeforeUse (declared : List String) : List Stmt → Bool
  | [] => true
  | s :: rest =>
      declaredBeforeUseStmt declared s &&
      declaredBeforeUse (visibleAfter s ++ declared) rest

end

/-! ### Basic lemmas about scopes and the symbol table -/

theorem lookupScope_insertScope (s : Scope) (x : String) (ty : Ty) (y : String) :
    lookupScope (insertScope s x ty) y = if x = y then some ty else lookupScope s y := by
  induction s with
  | nil =>
      simp only [insertScope, lookupScope]
  | cons hd tl ih =>
      obtain ⟨z, tz⟩ := hd
      by_cases hzx : z = x
      · subst hzx
        by_cases hzy : z = y
        · subst hzy
          simp [insertScope, lookupScope]
        · simp [insertScope, lookupScope, hzy]
      · by_cases hzy : z = y
        · subst hzy
          have hxy : ¬ x = z := fun h => hzx h.symm
          simp [insertScope, lookupScope, hzx, hxy]
        · simp [insertScope, lookupScope, hzx, hzy, ih]

theorem lastScope_declareLast (t : SymbolTable) (x : String) (ty : Ty) :
    lastScope (declareLast t x ty) = insertScope (lastScope t) x ty := by
  simp [declareLast, lastScope]

theorem lastScope_singleton (s : Scope) : lastScope [s] = s := rfl

theorem declareLast_singleton (s : Scope) (x : String) (ty : Ty) :
    declareLast [s] x ty = [insertScope s x ty] := rfl

theorem numExpr_get_value_type : ∀ (d : List String) (s : Scope) (e : Expr),
    NumInv d s → numExpr d e = true →
    ∃ ty, get_value_type [s] e = .ok ty ∧ (ty = Ty.int ∨ ty = Ty.float)
  | d, s, .name x, hinv, he => by
      have hx : x ∈ d := by simpa [numExpr] using he
      obtain ⟨ty, hl, hty⟩ := hinv x hx
      exact ⟨ty, by simp [get_value_type, lastScope_singleton, hl], hty⟩
  | _, _, .num (.ofInt _), _, _ => ⟨.int, rfl, Or.inl rfl⟩
  | _, _, .num .ofFloat, _, _ => ⟨.float, rfl, Or.inr rfl⟩
  | _, _, .str _, _, he => by simp [numExpr] at he
  | d, s, .binOp op l r, hinv, he => by
      have hlr : numExpr d l = true ∧ numExpr d r = true := by
        simpa [numExpr, Bool.and_eq_true] using he
      obtain ⟨lt, hgl, hlt⟩ := numExpr_get_value_type d s l hinv hlr.1
      obtain ⟨rt, hgr, hrt⟩ := numExpr_get_value_type d s r hinv hlr.2
      refine ⟨.float, ?_, Or.inr rfl⟩
      simp only [get_value_type, hgl, hgr]
      rcases hlt with h1 | h1 <;> rcases hrt with h2 | h2 <;> subst h1 <;> subst h2 <;> simp
  | _, _, .call _ _, _, he => by simp [numExpr] at he
  | _, _, .attr _ _, _, he => by simp [numExpr] at he

theorem numExpr_visitExpr : ∀ (d : List String) (s : Scope) (e : Expr),
    NumInv d s → numExpr d e = true → visitExpr e [s] = none
  | d, s, .name x, hinv, he => by
      have hx : x ∈ d := by simpa [numExpr] using he
      obtain ⟨ty, hl, _⟩ := hinv x hx
      simp [visitExpr, inAnyScope, hl]
  | _, _, .num (.ofInt _), _, _ => rfl
  | _, _, .num .ofFloat, _, _ => rfl
  | _, _, .str _, _, he => by simp [numExpr] at he
  | d, s, .binOp op l r, hinv, he => by
      have hlr : numExpr d l = true ∧ numExpr d r = true := by
        simpa [numExpr, Bool.and_eq_true] using he
      have hvl := numExpr_visitExpr d s l hinv hlr.1
      have hvr := numExpr_visitExpr d s r hinv hlr.2
      obtain ⟨lt, hgl, hlt⟩ := numExpr_get_value_type d s l hinv hlr.1
      obtain ⟨rt, hgr, hrt⟩ := numExpr_get_value_type d s r hinv hlr.2
      simp only [visitExpr, hvl, hvr, hgl, hgr]
      rcases hlt with h1 | h1 <;> rcases hrt with h2 | h2 <;> subst h1 <;> subst h2 <;>
        simp [allowedPair]
  | _, _, .call _ _, _, he => by simp [numExpr] at he
  | _, _, .attr _ _, _, he => by simp [numExpr] at he

theorem numStmt_visitStmt (d : List String) (s : Scope) (st : Stmt) (d2 : List String)
    (hinv : NumInv d s) (h : numStmt d st = some d2) :
    ∃ s2, visitStmt st [s] = ([s2], none) ∧ NumInv d2 s2 := by
  cases st with
  | assign targets v =>
      rcases targets with _ | ⟨tgt, rest⟩
      · simp [numStmt] at h
      · cases tgt with
        | name x =>
            rcases rest with _ | ⟨tgt2, rest2⟩
            · by_cases hnum : numExpr d v = true
              · rw [numStmt, if_pos hnum] at h
                have hd2 : d2 = x :: d := by injection h with h2; exact h2.symm
                subst hd2
                obtain ⟨ty, hg, hty⟩ := numExpr_get_value_type d s v hinv hnum
                refine ⟨insertScope s x ty, ?_, ?_⟩
                · simp [visitStmt, assignLoop, hg, declareLast_singleton]
                · intro y hy
                  rcases List.mem_cons.mp hy with hyx | hyd
                  · subst hyx
                    exact ⟨ty, by simp [lookupScope_insertScope], hty⟩
                  · obtain ⟨ty2, hl2, hty2⟩ := hinv y hyd
                    by_cases hxy : x = y
                    · subst hxy
                      exact ⟨ty, by simp [lookupScope_insertScope], hty⟩
                    · exact ⟨ty2, by simp [lookupScope_insertScope, hxy, hl2], hty2⟩
              · rw [numStmt, if_neg hnum] at h
                exact absurd h (by simp)
            · simp [numStmt] at h
        | num n => simp [numStmt] at h
        | str s0 => simp [numStmt] at h
        | binOp op l r => simp [numStmt] at h
        | call f args => simp [numStmt] at h
        | attr v0 a => simp [numStmt] at h
  | exprStmt e =>
      by_cases hnum : numExpr d e = true
      · rw [numStmt, if_pos hnum] at h
        have hd : d2 = d := by injection h with h2; exact h2.symm
        subst hd
        exact ⟨s, by simp [visitStmt, numExpr_visitExpr _ s e hinv hnum], hinv⟩
      · rw [numStmt, if_neg hnum] at h
        exact absurd h (by simp)
  | functionDef n args body => simp [numStmt] at h
  | classDef n body => simp [numStmt] at h
  | ret e => simp [numStmt] at h

theorem numProg_visitStmtList : ∀ (ss : List Stmt) (d : List String) (s : Scope),
    NumInv d s → numProg d ss = true → (visitStmtList ss [s]).2 = none
  | [], _, _, _, _ => rfl
  | st :: rest, d, s, hinv, hp => by
      cases hst : numStmt d st with
      | none => rw [numProg, hst] at hp; exact absurd hp (by simp)
      | some d2 =>
          rw [numProg, hst] at hp
          obtain ⟨s2, hv, hinv2⟩ := numStmt_visitStmt d s st d2 hinv hst
          have := numProg_visitStmtList rest d2 s2 hinv2 hp
          simp only [visitStmtList, hv]
          exact this



theorem mem_scopeKeys_iff (s : Scope) (y : String) :
    y ∈ scopeKeys s ↔ (lookupScope s y).isSome = true := by
  induction s with
  | nil => simp [scopeKeys, lookupScope]
  | cons hd tl ih =>
      obtain ⟨z, tz⟩ := hd
      by_cases hz : z = y
      · subst hz
        simp [scopeKeys, lookupScope]
      · have hz2 : ¬ y = z := fun h => hz h.symm
        simp only [scopeKeys, List.map_cons, List.mem_cons, hz2, false_or, lookupScope,
          if_neg hz]
        exact ih

theorem inAnyScope_iff (y : String) (t : SymbolTable) :
    inAnyScope y t = true ↔ y ∈ tableNames t := by
  simp only [inAnyScope, List.any_eq_true, tableNames, List.mem_flatten, List.mem_map]
  constructor
  · rintro ⟨s, hs, hsome⟩
    exact ⟨scopeKeys s, ⟨s, hs, rfl⟩, (mem_scopeKeys_iff s y).mpr hsome⟩
  · rintro ⟨ks, ⟨s, hs, rfl⟩, hy⟩
    exact ⟨s, hs, (mem_scopeKeys_iff s y).mp hy⟩

theorem mem_scopeKeys_insertScope (s : Scope) (x : String) (ty : Ty) (y : String)
    (h : y ∈ scopeKeys (insertScope s x ty)) : y = x ∨ y ∈ scopeKeys s := by
  rw [mem_scopeKeys_iff, lookupScope_insertScope] at h
  by_cases hxy : x = y
  · exact Or.inl hxy.symm
  · rw [if_neg hxy] at h
    exact Or.inr ((mem_scopeKeys_iff s y).mpr h)

theorem mem_tableNames_append (t1 t2 : SymbolTable) (y : String) :
    y ∈ tableNames (t1 ++ t2) ↔ y ∈ tableNames t1 ∨ y ∈ tableNames t2 := by
  simp [tableNames]

theorem mem_tableNames_of_dropLast (t : SymbolTable) (y : String)
    (h : y ∈ tableNames t.dropLast) : y ∈ tableNames t := by
  simp only [tableNames, List.mem_flatten, List.mem_map] at h ⊢
  obtain ⟨ks, ⟨s, hs, rfl⟩, hy⟩ := h
  exact ⟨scopeKeys s, ⟨s, List.dropLast_subset _ hs, rfl⟩, hy⟩

theorem mem_scopeKeys_lastScope (t : SymbolTable) (y : String)
    (h : y ∈ scopeKeys (lastScope t)) : y ∈ tableNames t := by
  cases ht : t.getLast? with
  | none =>
      rw [List.getLast?_eq_none_iff] at ht
      subst ht
      simp [lastScope, scopeKeys] at h
  | some s0 =>
      have hmem : s0 ∈ t := by
        have h0 : s0 ∈ t.getLast? := by simp [ht]
        obtain ⟨hne, heq⟩ := List.mem_getLast?_eq_getLast h0
        exact heq ▸ List.getLast_mem hne
      simp only [lastScope, ht, Option.getD_some] at h
      simp only [tableNames, List.mem_flatten, List.mem_map]
      exact ⟨scopeKeys s0, ⟨s0, hmem, rfl⟩, h⟩

theorem mem_tableNames_declareLast (t : SymbolTable) (x : String) (ty : Ty) (y : String)
    (h : y ∈ tableNames (declareLast t x ty)) : y = x ∨ y ∈ tableNames t := by
  unfold declareLast at h
  rw [mem_tableNames_append] at h
  rcases h with h | h
  · exact Or.inr (mem_tableNames_of_dropLast t y h)
  · have h2 : y ∈ scopeKeys (insertScope (lastScope t) x ty) := by
      simpa [tableNames] using h
    rcases mem_scopeKeys_insertScope _ _ _ _ h2 with h3 | h3
    · exact Or.inl h3
    · exact Or.inr (mem_scopeKeys_lastScope t y h3)

theorem mem_tableNames_declareParams : ∀ (args : List String) (t : SymbolTable) (y : String),
    y ∈ tableNames (declareParams args t) → y ∈ args ∨ y ∈ tableNames t
  | [], _, _, h => Or.inr h
  | a :: rest, t, y, h => by
      rcases mem_tableNames_declareParams rest (declareLast t a .var) y h with h2 | h2
      · exact Or.inl (List.mem_cons_of_mem a h2)
      · rcases mem_tableNames_declareLast t a .var y h2 with h3 | h3
        · exact Or.inl (h3 ▸ List.mem_cons_self a rest)
        · exact Or.inr h3

theorem get_value_type_ok_names : ∀ (t : SymbolTable) (v : Expr) (ty : Ty),
    get_value_type t v = .ok ty → ∀ y, y ∈ allNames v → y ∈ scopeKeys (lastScope t)
  | t, .name x, ty, h, y, hy => by
      simp only [allNames, List.mem_singleton] at hy
      subst hy
      simp only [get_value_type] at h
      cases hl : lookupScope (lastScope t) y with
      | none => rw [hl] at h; exact absurd h (by simp)
      | some ty2 => exact (mem_scopeKeys_iff _ y).mpr (by simp [hl])
  | t, .binOp op l r, ty, h, y, hy => by
      simp only [get_value_type] at h
      cases hgl : get_value_type t l with
      | error e => rw [hgl] at h; exact absurd h (by simp)
      | ok lt =>
          rw [hgl] at h
          cases hgr : get_value_type t r with
          | error e => rw [hgr] at h; exact absurd h (by simp)
          | ok rt =>
              simp only [allNames, List.mem_append] at hy
              rcases hy with hy | hy
              · exact get_value_type_ok_names t l lt hgl y hy
              · exact get_value_type_ok_names t r rt hgr y hy
  | _, .num (.ofInt _), _, _, y, hy => by simp [allNames] at hy
  | _, .num .ofFloat, _, _, y, hy => by simp [allNames] at hy
  | _, .str _, _, _, y, hy => by simp [allNames] at hy
  | t, .call f args, ty, h, y, hy => by simp [get_value_type] at h
  | t, .attr v a, ty, h, y, hy => by simp [get_value_type] at h



mutual

theorem visitExpr_none_names : ∀ (e : Expr) (t : SymbolTable), visitExpr e t = none →
    ∀ y, y ∈ checkedNames e → y ∉ builtinNames → inAnyScope y t = true
  | .name x, t, h, y, hy, _ => by
      simp only [checkedNames, List.mem_singleton] at hy
      subst hy
      simp only [visitExpr] at h
      by_cases hx : inAnyScope y t = true
      · exact hx
      · rw [if_neg hx] at h
        exact absurd h (by simp)
  | .num _, _, _, y, hy, _ => by simp [checkedNames] at hy
  | .str _, _, _, y, hy, _ => by simp [checkedNames] at hy
  | .binOp op l r, t, h, y, hy, hb => by
      simp only [visitExpr] at h
      cases hvl : visitExpr l t with
      | some e0 => rw [hvl] at h; exact absurd h (by simp)
      | none =>
          rw [hvl] at h
          cases hvr : visitExpr r t with
          | some e0 => rw [hvr] at h; exact absurd h (by simp)
          | none =>
              simp only [checkedNames, List.mem_append] at hy
              rcases hy with hy | hy
              · exact visitExpr_none_names l t hvl y hy hb
              · exact visitExpr_none_names r t hvr y hy hb
  | .call f args, t, h, y, hy, hb => by
      cases f with
      | name g =>
          simp only [visitExpr] at h
          simp only [checkedNames, checkedNamesList, List.mem_append] at hy
          by_cases hg : g ∈ builtinNames
          · rw [if_pos hg] at h
            rcases hy with hy | hy
            · simp only [List.mem_singleton] at hy
              subst hy
              exact absurd hg hb
            · exact visitExprList_none_names args t h y hy hb
          · rw [if_neg hg] at h
            exact absurd h (by simp)
      | num n =>
          simp only [visitExpr] at h
          simp only [checkedNames, List.mem_append, List.not_mem_nil, false_or,
            List.nil_append] at hy
          exact visitExprList_none_names args t h y hy hb
      | str s0 =>
          simp only [visitExpr] at h
          simp only [checkedNames, List.mem_append, List.not_mem_nil, false_or,
            List.nil_append] at hy
          exact visitExprList_none_names args t h y hy hb
      | binOp op l r =>
          simp only [visitExpr] at h
          simp only [checkedNames, List.mem_append, List.not_mem_nil, false_or,
            List.nil_append] at hy
          exact visitExprList_none_names args t h y hy hb
      | call f2 args2 =>
          simp only [visitExpr] at h
          simp only [checkedNames, List.mem_append, List.not_mem_nil, false_or,
            List.nil_append] at hy
          exact visitExprList_none_names args t h y hy hb
      | attr v a =>
          simp only [visitExpr] at h
          simp only [checkedNames, List.mem_append, List.not_mem_nil, false_or,
            List.nil_append] at hy
          exact visitExprList_none_names args t h y hy hb
  | .attr v a, t, h, y, hy, hb => by
      simp only [visitExpr] at h
      simp only [checkedNames] at hy
      exact visitExpr_none_names v t h y hy hb

theorem visitExprList_none_names : ∀ (es : List Expr) (t : SymbolTable),
    visitExprList es t = none →
    ∀ y, y ∈ checkedNamesList es → y ∉ builtinNames → inAnyScope y t = true
  | [], _, _, y, hy, _ => by simp [checkedNamesList] at hy
  | e :: rest, t, h, y, hy, hb => by
      simp only [visitExprList] at h
      cases hve : visitExpr e t with
      | some err => rw [hve] at h; exact absurd h (by simp)
      | none =>
          rw [hve] at h
          simp only [checkedNamesList, List.mem_append] at hy
          rcases hy with hy | hy
          · exact visitExpr_none_names e t hve y hy hb
          · exact visitExprList_none_names rest t h y hy hb

end



theorem assignLoop_fst_names : ∀ (tgts : List Expr) (v : Expr) (t : SymbolTable) (y : String),
    y ∈ tableNames (assignLoop tgts v t).1 →
    y ∈ tableNames t ∨
      y ∈ tgts.filterMap (fun tgt => match tgt with | .name x => some x | _ => none)
  | [], _, _, _, h => Or.inl h
  | tgt :: rest, v, t, y, h => by
      cases tgt with
      | name x =>
          simp only [assignLoop] at h
          cases hg : get_value_type t v with
          | error e => rw [hg] at h; exact Or.inl (by simpa using h)
          | ok ty =>
              rw [hg] at h
              have h1 : y ∈ tableNames (assignLoop rest v (declareLast t x ty)).1 := by
                simpa using h
              rcases assignLoop_fst_names rest v (declareLast t x ty) y h1 with h2 | h2
              · rcases mem_tableNames_declareLast t x ty y h2 with h3 | h3
                · subst h3
                  exact Or.inr (by simp [List.filterMap_cons])
                · exact Or.inl h3
              · exact Or.inr (by simp [List.filterMap_cons, h2])
      | num n => simp only [assignLoop] at h; exact Or.inl (by simpa using h)
      | str s0 => simp only [assignLoop] at h; exact Or.inl (by simpa using h)
      | binOp op l r => simp only [assignLoop] at h; exact Or.inl (by simpa using h)
      | call f args => simp only [assignLoop] at h; exact Or.inl (by simpa using h)
      | attr v0 a => simp only [assignLoop] at h; exact Or.inl (by simpa using h)

theorem assignLoop_cons_checked (tgt : Expr) (rest : List Expr) (v : Expr) (t : SymbolTable)
    (h : (assignLoop (tgt :: rest) v t).2 = none) :
    ∀ y, y ∈ allNames v → y ∈ scopeKeys (lastScope t) := by
  intro y hy
  cases tgt with
  | name x =>
      simp only [assignLoop] at h
      cases hg : get_value_type t v with
      | error e => rw [hg] at h; simp at h
      | ok ty => exact get_value_type_ok_names t v ty hg y hy
  | num n => simp [assignLoop] at h
  | str s0 => simp [assignLoop] at h
  | binOp op l r => simp [assignLoop] at h
  | call f args => simp [assignLoop] at h
  | attr v0 a => simp [assignLoop] at h



mutual

theorem visitStmt_fst_names : ∀ (st : Stmt) (t : SymbolTable) (y : String),
    y ∈ tableNames (visitStmt st t).1 → y ∈ tableNames t ∨ y ∈ declNamesStmt st
  | .functionDef n args body, t, y, h => by
      simp only [visitStmt] at h
      rcases visitStmtList_fst_names body (declareParams args (declareLast t n .function)) y h
        with h2 | h2
      · rcases mem_tableNames_declareParams args _ y h2 with h3 | h3
        · exact Or.inr (by simp [declNamesStmt, h3])
        · rcases mem_tableNames_declareLast t n .function y h3 with h4 | h4
          · exact Or.inr (by simp [declNamesStmt, h4])
          · exact Or.inl h4
      · exact Or.inr (by simp [declNamesStmt, h2])
  | .classDef n body, t, y, h => by
      simp only [visitStmt] at h
      rcases visitStmtList_fst_names body (declareLast t n .cls) y h with h2 | h2
      · rcases mem_tableNames_declareLast t n .cls y h2 with h3 | h3
        · exact Or.inr (by simp [declNamesStmt, h3])
        · exact Or.inl h3
      · exact Or.inr (by simp [declNamesStmt, h2])
  | .assign targets v, t, y, h => by
      simp only [visitStmt] at h
      rcases assignLoop_fst_names targets v t y h with h2 | h2
      · exact Or.inl h2
      · exact Or.inr (by simpa [declNamesStmt] using h2)
  | .exprStmt e, t, y, h => Or.inl h
  | .ret e, t, y, h => Or.inl h

theorem visitStmtList_fst_names : ∀ (ss : List Stmt) (t : SymbolTable) (y : String),
    y ∈ tableNames (visitStmtList ss t).1 → y ∈ tableNames t ∨ y ∈ declNamesStmtList ss
  | [], _, _, h => Or.inl h
  | st :: rest, t, y, h => by
      simp only [visitStmtList] at h
      cases hs : visitStmt st t with
      | mk t1 o =>
          rw [hs] at h
          cases o with
          | some e =>
              have h1 : y ∈ tableNames t1 := by simpa using h
              rcases visitStmt_fst_names st t y (by rw [hs]; exact h1) with h2 | h2
              · exact Or.inl h2
              · exact Or.inr (by simp [declNamesStmtList, List.mem_append, h2])
          | none =>
              have h1 : y ∈ tableNames (visitStmtList rest t1).1 := by simpa using h
              rcases visitStmtList_fst_names rest t1 y h1 with h2 | h2
              · rcases visitStmt_fst_names st t y (by rw [hs]; exact h2) with h3 | h3
                · exact Or.inl h3
                · exact Or.inr (by simp [declNamesStmtList, List.mem_append, h3])
              · exact Or.inr (by simp [declNamesStmtList, List.mem_append, h2])

end

mutual

theorem visitStmt_none_checked : ∀ (st : Stmt) (t : SymbolTable),
    (visitStmt st t).2 = none → ∀ y, y ∈ checkedUsesStmt st → y ∉ builtinNames →
    y ∈ tableNames t ∨ y ∈ declNamesStmt st
  | .functionDef n args body, t, h, y, hy, hb => by
      simp only [visitStmt] at h
      simp only [checkedUsesStmt] at hy
      rcases visitStmtList_none_checked body (declareParams args (declareLast t n .function))
          h y hy hb with h2 | h2
      · rcases mem_tableNames_declareParams args _ y h2 with h3 | h3
        · exact Or.inr (by simp [declNamesStmt, h3])
        · rcases mem_tableNames_declareLast t n .function y h3 with h4 | h4
          · exact Or.inr (by simp [declNamesStmt, h4])
          · exact Or.inl h4
      · exact Or.inr (by simp [declNamesStmt, h2])
  | .classDef n body, t, h, y, hy, hb => by
      simp only [visitStmt] at h
      simp only [checkedUsesStmt] at hy
      rcases visitStmtList_none_checked body (declareLast t n .cls) h y hy hb with h2 | h2
      · rcases mem_tableNames_declareLast t n .cls y h2 with h3 | h3
        · exact Or.inr (by simp [declNamesStmt, h3])
        · exact Or.inl h3
      · exact Or.inr (by simp [declNamesStmt, h2])
  | .assign targets v, t, h, y, hy, hb => by
      cases targets with
      | nil => simp [checkedUsesStmt] at hy
      | cons tgt rest =>
          simp only [visitStmt] at h
          simp only [checkedUsesStmt] at hy
          exact Or.inl (mem_scopeKeys_lastScope t y
            (assignLoop_cons_checked tgt rest v t h y hy))
  | .exprStmt e, t, h, y, hy, hb =>
      Or.inl ((inAnyScope_iff y t).mp (visitExpr_none_names e t h y hy hb))
  | .ret e, t, h, y, hy, hb =>
      Or.inl ((inAnyScope_iff y t).mp (visitExpr_none_names e t h y hy hb))

theorem visitStmtList_none_checked : ∀ (ss : List Stmt) (t : SymbolTable),
    (visitStmtList ss t).2 = none → ∀ y, y ∈ checkedUsesStmtList ss → y ∉ builtinNames →
    y ∈ tableNames t ∨ y ∈ declNamesStmtList ss
  | [], _, _, y, hy, _ => by simp [checkedUsesStmtList] at hy
  | st :: rest, t, h, y, hy, hb => by
      simp only [visitStmtList] at h
      cases hs : visitStmt st t with
      | mk t1 o =>
          rw [hs] at h
          cases o with
          | some e => simp at h
          | none =>
              have hrest : (visitStmtList rest t1).2 = none := by simpa using h
              simp only [checkedUsesStmtList, List.mem_append] at hy
              rcases hy with hy | hy
              · rcases visitStmt_none_checked st t (by rw [hs]) y hy hb with h2 | h2
                · exact Or.inl h2
                · exact Or.inr (by simp [declNamesStmtList, List.mem_append, h2])
              · rcases visitStmtList_none_checked rest t1 hrest y hy hb with h2 | h2
                · rcases visitStmt_fst_names st t y (by rw [hs]; exact h2) with h3 | h3
                  · exact Or.inl h3
                  · exact Or.inr (by simp [declNamesStmtList, List.mem_append, h3])
                · exact Or.inr (by simp [declNamesStmtList, List.mem_append, h2])

end

theorem analyze_success_names (prog : List Stmt) (y : String)
    (h : analyze prog = .success) (hy : y ∈ checkedUsesStmtList prog)
    (hb : y ∉ builtinNames) : y ∈ declNamesStmtList prog := by
  have h2 : (runAnalyzer prog).2 = none := by
    unfold analyze at h
    cases he : (runAnalyzer prog).2 with
    | none => rfl
    | some e => rw [he] at h; exact absurd h (by simp)
  rcases visitStmtList_none_checked prog [[]] h2 y hy hb with h3 | h3
  · simp [tableNames, scopeKeys] at h3
  · exact h3



theorem numExpr_usesDeclared : ∀ (d : List String) (e : Expr),
    numExpr d e = true → usesDeclared d e = true
  | d, .name x, he => by simpa [usesDeclared, numExpr] using he
  | _, .num _, _ => rfl
  | d, .binOp op l r, he => by
      have hlr : numExpr d l = true ∧ numExpr d r = true := by
        simpa [numExpr, Bool.and_eq_true] using he
      simp [usesDeclared, numExpr_usesDeclared d l hlr.1, numExpr_usesDeclared d r hlr.2]
  | _, .str _, he => by simp [numExpr] at he
  | _, .call _ _, he => by simp [numExpr] at he
  | _, .attr _ _, he => by simp [numExpr] at he

theorem numStmt_declaredBeforeUseStmt (d : List String) (st : Stmt) (d2 : List String)
    (h : numStmt d st = some d2) :
    declaredBeforeUseStmt d st = true ∧ visibleAfter st ++ d = d2 := by
  cases st with
  | assign targets v =>
      rcases targets with _ | ⟨tgt, rest⟩
      · simp [numStmt] at h
      · cases tgt with
        | name x =>
            rcases rest with _ | ⟨tgt2, rest2⟩
            · by_cases hnum : numExpr d v = true
              · rw [numStmt, if_pos hnum] at h
                have hd2 : d2 = x :: d := by injection h with h2; exact h2.symm
                subst hd2
                refine ⟨?_, by simp [visibleAfter, List.filterMap_cons]⟩
                simpa [declaredBeforeUseStmt] using numExpr_usesDeclared d v hnum
              · rw [numStmt, if_neg hnum] at h
                exact absurd h (by simp)
            · simp [numStmt] at h
        | num n => simp [numStmt] at h
        | str s0 => simp [numStmt] at h
        | binOp op l r => simp [numStmt] at h
        | call f args => simp [numStmt] at h
        | attr v0 a => simp [numStmt] at h
  | exprStmt e =>
      by_cases hnum : numExpr d e = true
      · rw [numStmt, if_pos hnum] at h
        have hd : d2 = d := by injection h with h2; exact h2.symm
        subst hd
        exact ⟨by simpa [declaredBeforeUseStmt] using numExpr_usesDeclared _ e hnum,
          by simp [visibleAfter]⟩
      · rw [numStmt, if_neg hnum] at h
        exact absurd h (by simp)
  | functionDef n args body => simp [numStmt] at h
  | classDef n body => simp [numStmt] at h
  | ret e => simp [numStmt] at h

theorem numProg_declaredBeforeUse : ∀ (ss : List Stmt) (d : List String),
    numProg d ss = true → declaredBeforeUse d ss = true
  | [], _, _ => rfl
  | st :: rest, d, hp => by
      cases hst : numStmt d st with
      | none => rw [numProg, hst] at hp; exact absurd hp (by simp)
      | some d2 =>
          rw [numProg, hst] at hp
          obtain ⟨h1, h2⟩ := numStmt_declaredBeforeUseStmt d st d2 hst
          simp [declaredBeforeUse, h1, h2, numProg_declaredBeforeUse rest d2 hp]

/-! ### The specification claims -/

/-- Claim C1 (corrected).  The claim as stated — every program whose
identifiers are all declared before use in a reachable scope is analyzed
successfully — is refuted by `C1_counterexample`.  The amended claim: for
every program of the numeric fragment (single-plain-name assignments and
expression statements over int/float literals, previously assigned names and
binary operations), every identifier is declared before use and the analyzer
returns `Success`. -/
theorem C1_numeric_declared_before_use_success (prog : List Stmt)
    (h : numProg [] prog = true) :
    declaredBeforeUse [] prog = true ∧ analyze prog = .success := by
  refine ⟨numProg_declaredBeforeUse prog [] h, ?_⟩
  have h2 := numProg_visitStmtList prog [] []
    (fun x hx => absurd hx (List.not_mem_nil x)) h
  show (match (runAnalyzer prog).2 with
        | none => AnalysisResult.success
        | some e => AnalysisResult.failure e) = AnalysisResult.success
  rw [show (runAnalyzer prog).2 = none from h2]

/-- Witness for C1: the program `x = 1; x + 1.0` is in the numeric fragment,
is declared-before-use, and analyzes successfully. -/
theorem C1_numeric_witness :
    numProg [] [Stmt.assign [.name "x"] (.num (.ofInt 1)),
                Stmt.exprStmt (.binOp .add (.name "x") (.num .ofFloat))] = true
    ∧ (declaredBeforeUse [] [Stmt.assign [.name "x"] (.num (.ofInt 1)),
          Stmt.exprStmt (.binOp .add (.name "x") (.num .ofFloat))] = true
       ∧ analyze [Stmt.assign [.name "x"] (.num (.ofInt 1)),
          Stmt.exprStmt (.binOp .add (.name "x") (.num .ofFloat))] = .success) :=
  ⟨rfl, C1_numeric_declared_before_use_success _ rfl⟩

/-- Counterexample to C1 as stated: the program `x = 1; y = "s"; z = x + y`
declares every identifier before use, yet the analyzer fails with a type
mismatch (this is the specification text section 8 type-mismatch scenario). -/
theorem C1_counterexample :
    declaredBeforeUse []
      [Stmt.assign [.name "x"] (.num (.ofInt 1)),
       Stmt.assign [.name "y"] (.str "s"),
       Stmt.assign [.name "z"] (.binOp .add (.name "x") (.name "y"))] = true
    ∧ analyze
      [Stmt.assign [.name "x"] (.num (.ofInt 1)),
       Stmt.assign [.name "y"] (.str "s"),
       Stmt.assign [.name "z"] (.binOp .add (.name "x") (.name "y"))]
      = .failure (.typeMismatch .int .str) := ⟨rfl, rfl⟩

/-- Claim C2 (corrected).  The claim as stated — a program referencing an
identifier never declared in any enclosing scope fails with an undefined-name
diagnostic naming that identifier — is refuted by `C2_counterexample` (the
diagnostic can name a different identifier, the first one reached).  The
amended claim: such a program never returns `Success` (for any identifier
whose use the traversal reaches and that is not a Python builtin), and when
the undefined use is the first violation reached the diagnostic does name it,
as in the section 8 scenario `print(x)` with `x` undeclared. -/
theorem C2_undeclared_reference_not_success (prog : List Stmt) (y : String)
    (huse : y ∈ checkedUsesStmtList prog) (hb : y ∉ builtinNames)
    (hdecl : y ∉ declNamesStmtList prog) :
    analyze prog ≠ .success
    ∧ analyze [Stmt.exprStmt (.call (.name "print") [.name "x"])]
        = .failure (.undefinedVariable "x") :=
  ⟨fun hs => hdecl (analyze_success_names prog y hs huse hb), by decide⟩

/-- Witness for C2: the one-statement program `q` references the undeclared,
non-builtin identifier `q` and does not analyze successfully. -/
theorem C2_witness :
    analyze [Stmt.exprStmt (.name "q")] ≠ .success
    ∧ analyze [Stmt.exprStmt (.call (.name "print") [.name "x"])]
        = .failure (.undefinedVariable "x") :=
  C2_undeclared_reference_not_success [Stmt.exprStmt (.name "q")] "q"
    (by decide) (by decide) (by decide)

/-- Counterexample to C2 as stated: the program `x; y` references `y`, which
is never declared anywhere, yet the failure diagnostic names `x`, not `y`. -/
theorem C2_counterexample :
    checkedUsesStmtList [Stmt.exprStmt (.name "x"), Stmt.exprStmt (.name "y")] = ["x", "y"]
    ∧ declNamesStmtList [Stmt.exprStmt (.name "x"), Stmt.exprStmt (.name "y")] = []
    ∧ analyze [Stmt.exprStmt (.name "x"), Stmt.exprStmt (.name "y")]
        = .failure (.undefinedVariable "x")
    ∧ analyze [Stmt.exprStmt (.name "x"), Stmt.exprStmt (.name "y")]
        ≠ .failure (.undefinedVariable "y") := by
  refine ⟨rfl, rfl, rfl, ?_⟩
  decide

/-- Claim C3 (code bug).  The claim says name resolution walks the scopes from
innermost to outermost and returns the first match.  In the source,
`get_value_type` consults only `self.symbol_table[-1]`: with an outer binding
`x: int` and an empty inner scope it reports `x` undefined instead of walking
outward, although the two specific shadowing readings of the claim scenario
(inner `x: str` yields `str`; after the pop, `int`) do evaluate as claimed. -/
theorem C3_lookup_only_innermost :
    get_value_type [[("x", Ty.int)], []] (.name "x") = .error (.undefinedVariable "x")
    ∧ get_value_type [[("x", Ty.int)], [("x", Ty.str)]] (.name "x") = .ok .str
    ∧ get_value_type [[("x", Ty.int)]] (.name "x") = .ok .int := ⟨rfl, rfl, rfl⟩

/-- Claim C4 (code bug).  The claim says a function declaration is checked in
a genuinely new nested scope and no parameter name is bound in the enclosing
scope afterwards.  The source never pushes a scope: after walking
`def f(a): a`, the module scope holds both `f` and the parameter `a`. -/
theorem C4_parameters_leak :
    runAnalyzer [Stmt.functionDef "f" ["a"] [.exprStmt (.name "a")]]
      = ([[("f", Ty.function), ("a", Ty.var)]], none)
    ∧ inAnyScope "a"
        (runAnalyzer [Stmt.functionDef "f" ["a"] [.exprStmt (.name "a")]]).1 = true :=
  ⟨rfl, rfl⟩

/-- Claim C5 (code bug).  The claim says call validation consults the symbol
table, so calling a function declared earlier succeeds.  The source checks the
callee only against `dir(__builtins__)`: after declaring `f`, the call `f(2)`
is rejected with `Funcion no definida` even though `f` is in the symbol
table. -/
theorem C5_user_function_call_rejected :
    analyze [Stmt.functionDef "f" ["a"] [.exprStmt (.name "a")],
             Stmt.exprStmt (.call (.name "f") [.num (.ofInt 2)])]
      = .failure (.undefinedFunction "f") := by decide

/-- Claim C6 (corrected).  The claim says `(Str, Str)` is accepted only for
concatenation, never for arithmetic operators; `C6_counterexample` shows the
source accepts `(Str, Str)` for subtraction.  The amended claim: for operands
that themselves visit and type cleanly, `visit_BinOp` accepts exactly the
operand-type pairs `(Int,Int)`, `(Float,Float)`, `(Int,Float)`, `(Float,Int)`,
`(Str,Str)` regardless of the operator, and fails on every other pair
(including any pair involving a function, class or parameter tag) with a
type-mismatch diagnostic naming both types. -/
theorem C6_pair_table_ignores_operator (op : BOp) (l r : Expr) (t : SymbolTable)
    (lt rt : Ty) (hl : visitExpr l t = none) (hr : visitExpr r t = none)
    (gl : get_value_type t l = .ok lt) (gr : get_value_type t r = .ok rt) :
    visitExpr (.binOp op l r) t =
      if (lt = Ty.int ∧ rt = Ty.int) ∨ (lt = Ty.float ∧ rt = Ty.float) ∨
         (lt = Ty.int ∧ rt = Ty.float) ∨ (lt = Ty.float ∧ rt = Ty.int) ∨
         (lt = Ty.str ∧ rt = Ty.str)
      then none else some (.typeMismatch lt rt) := by
  simp only [visitExpr, hl, hr, gl, gr]
  cases lt <;> cases rt <;> simp [allowedPair]

/-- Witness for C6: string literals multiplied, a concrete instance of the
pair table applied to `(Str, Str)` under an arithmetic operator. -/
theorem C6_witness :
    visitExpr (.binOp .mult (.str "a") (.str "b")) [[]] = none := by
  have h := C6_pair_table_ignores_operator .mult (.str "a") (.str "b") [[]]
    .str .str rfl rfl rfl rfl
  simpa using h

/-- Counterexample to C6 as stated: subtraction of two string literals — an
arithmetic operator on `(Str, Str)` — is accepted without any diagnostic. -/
theorem C6_counterexample :
    visitExpr (.binOp .sub (.str "a") (.str "b")) [[]] = none := rfl

/-- Claim C7 (code bug).  The claim says a binary expression over two `Int`
operands is inferred as `Int`.  The source types any binary operation with
equal operand types as `float`, so `1 + 2` is inferred `float`, not `int`. -/
theorem C7_int_int_infers_float :
    get_value_type [[]] (.binOp .add (.num (.ofInt 1)) (.num (.ofInt 2))) = .ok .float
    ∧ Ty.float ≠ Ty.int := ⟨rfl, by decide⟩

/-- Claim C8 (corrected).  The claim says an assignment with multiple targets
fails with an unsupported-target diagnostic; `C8_counterexample` shows two
plain-name targets both bind and the statement succeeds.  The claim also says
a single-plain-name assignment always succeeds, but it fails whenever the
right-hand side cannot be typed.  The amended claim: a single-plain-name
assignment binds the name in the current scope to the inferred type of the
right-hand side exactly when that inference succeeds (and propagates the
inference error otherwise), and an assignment whose sole target is not a plain
name fails with the unsupported-target diagnostic. -/
theorem C8_single_name_assignment (t : SymbolTable) (x : String) (v tgt : Expr)
    (h : tgt.isName = false) :
    (visitStmt (.assign [.name x] v) t =
      match get_value_type t v with
      | .ok ty => (declareLast t x ty, none)
      | .error e => (t, some e))
    ∧ visitStmt (.assign [tgt] v) t = (t, some .unsupportedAssignTarget) := by
  constructor
  · simp only [visitStmt, assignLoop]
    cases get_value_type t v <;> simp [assignLoop]
  · cases tgt <;> simp_all [visitStmt, assignLoop, Expr.isName]

/-- Witness for C8: `x = 1` binds `x` to `int`; `o.a = 1` fails with the
unsupported-target diagnostic. -/
theorem C8_witness :
    visitStmt (.assign [.name "x"] (.num (.ofInt 1))) [[]] = ([[("x", Ty.int)]], none)
    ∧ visitStmt (.assign [.attr (.name "o") "a"] (.num (.ofInt 1))) [[]]
        = ([[]], some .unsupportedAssignTarget) := by
  have h := C8_single_name_assignment [[]] "x" (.num (.ofInt 1))
    (.attr (.name "o") "a") rfl
  exact ⟨h.1.trans (by rfl), h.2⟩

/-- Counterexample to C8 as stated: the multi-target assignment `x = y = 1`
(two plain-name targets) succeeds and binds both names, instead of failing
with an unsupported-assignment-target diagnostic. -/
theorem C8_counterexample :
    runAnalyzer [Stmt.assign [.name "x", .name "y"] (.num (.ofInt 1))]
      = ([[("x", Ty.int), ("y", Ty.int)]], none)
    ∧ analyze [Stmt.assign [.name "x", .name "y"] (.num (.ofInt 1))] = .success :=
  ⟨rfl, rfl⟩

/-- Claim C9 (confirmed).  Assignment handling is not atomic on error: with a
plain-name target followed by a non-name target, the handler first binds the
plain name in the current scope and only then raises the unsupported-target
error, so the symbol table is modified although the statement fails. -/
theorem C9_partial_binding_then_error (t : SymbolTable) (x : String) (v : Expr)
    (ty : Ty) (tgt : Expr) (hv : get_value_type t v = .ok ty)
    (ht : tgt.isName = false) :
    visitStmt (.assign [.name x, tgt] v) t
      = (declareLast t x ty, some .unsupportedAssignTarget)
    ∧ lookupScope (lastScope (declareLast t x ty)) x = some ty := by
  constructor
  · cases tgt <;> simp_all [visitStmt, assignLoop, Expr.isName]
  · rw [lastScope_declareLast, lookupScope_insertScope]
    simp

/-- Witness for C9: `x = o.a = 1` leaves `x` bound to `int` in the table it
returns together with the unsupported-target error. -/
theorem C9_witness :
    visitStmt (.assign [.name "x", .attr (.name "o") "a"] (.num (.ofInt 1))) [[]]
      = ([[("x", Ty.int)]], some .unsupportedAssignTarget)
    ∧ lookupScope (lastScope (declareLast [[]] "x" Ty.int)) "x" = some Ty.int := by
  have h := C9_partial_binding_then_error [[]] "x" (.num (.ofInt 1)) .int
    (.attr (.name "o") "a") rfl rfl
  exact ⟨h.1.trans (by rfl), h.2⟩

/-- Claim C10 (confirmed).  A call whose callee is not a plain identifier gets
no callee validation at all: the handler is exactly the traversal of the
argument list, so no undefined-call diagnostic can arise from the callee. -/
theorem C10_nonname_callee_unchecked (f : Expr) (args : List Expr) (t : SymbolTable)
    (h : f.isName = false) :
    visitExpr (.call f args) t = visitExprList args t := by
  cases f <;> simp_all [visitExpr, Expr.isName]

/-- Witness for C10: a call through an attribute of an undeclared name is
analyzed as just its argument list. -/
theorem C10_witness :
    visitExpr (.call (.attr (.name "obj") "method") [.num (.ofInt 1)]) [[]]
      = visitExprList [.num (.ofInt 1)] [[]] :=
  C10_nonname_callee_unchecked (.attr (.name "obj") "method") [.num (.ofInt 1)] [[]] rfl

end Sem
